import Mathlib

/-!
Verification development for the trivia-quiz round engine of HoppenR/trivia.

The repository ships the chat-facing driver `internal/triviabot/triviabot.go`
and a generated data-access layer; the `trivia` engine package itself
(`Round`, `Quiz`, `Leaderboard`) is consumed by the driver but its source is
not part of the checked tree, so the engine operations are modelled from the
specification, while the driver handlers (`onMsg`, `onPrivMsg`,
`onRoundCompletion`, `runQuiz`) are embedded from the Go source.
Machine integers are modelled as `Int`/`Nat`; timestamps are `Int`
(Go nanoseconds); Go maps keyed by identity are association lists.
-/

namespace Trivia

/-- A single user's recorded answer to one round: identity, chosen choice
index, submission timestamp, correctness flag (`trivia.Participant`, used by
the driver as `score[i].Name`, `score[i].TimeIn`). -/
structure Participant where
  name : String
  chosenIdx : Int
  timeIn : Int
  correct : Bool
deriving Repr, DecidableEq

/-- The fixed number of correct answers that closes a round
("First 3 correct answers are awarded points.", spec "Capacity"). -/
def capacity : Nat := 3

/-- One question's lifecycle state (`trivia.Round`): question text, category,
difficulty, correct-answer text, the shuffled choice list with the index of
the correct answer in it, the identity→Participant map, the time-ordered list
of correct participants, and the open/closed flag. The next-round link is
modelled at the `Quiz` level as a position in the round chain. -/
structure Round where
  num : Nat
  question : String
  category : String
  difficulty : String
  correctAnswer : String
  answers : List String
  correctIdx : Nat
  participants : List (String × Participant)
  correctList : List Participant
  isOpen : Bool
deriving Repr, DecidableEq

/-- Modelled from the spec: `Round.SubmitAnswer(identity, chosenIndex,
timestamp)` (the `trivia` package's `NewParticipant`, whose source is not
under the checked tree; only its caller `onPrivMsg` is). Fails closed
(returns `false`, no state change) if the identity already has a Participant
or the round is closed; otherwise records a Participant with
`correct = (chosenIndex == correctIndex)`, appends correct answers to the
time-ordered correct list, and when the correct count reaches `capacity`
closes the round and fires the completion callback exactly once,
synchronously, with the correct-answer text and the correct list. The
callback invocation is reified as the third component: `none` means the
callback did not run, `some (answerText, ranked)` means it ran once with
those arguments. -/
def Round.submitAnswer (r : Round) (identity : String) (chosenIdx : Int)
    (t : Int) : Round × Bool × Option (String × List Participant) :=
  if r.isOpen = false then (r, false, none)
  else if (r.participants.lookup identity).isSome then (r, false, none)
  else
    let correct : Bool := chosenIdx == (r.correctIdx : Int)
    let p : Participant := ⟨identity, chosenIdx, t, correct⟩
    let newCorrect := if correct then r.correctList ++ [p] else r.correctList
    let r1 := { r with participants := (identity, p) :: r.participants,
                       correctList := newCorrect }
    if capacity ≤ newCorrect.length then
      ({ r1 with isOpen := false }, true, some (r.correctAnswer, newCorrect))
    else (r1, true, none)

/-- Modelled from the spec: `Round.Close()`, idempotent forced closure; if
the round was open it closes and fires the completion callback with whatever
correct Participants have been recorded, else it changes nothing and fires
nothing. -/
def Round.close (r : Round) : Round × Option (String × List Participant) :=
  if r.isOpen then ({ r with isOpen := false }, some (r.correctAnswer, r.correctList))
  else (r, none)

/-- Run a sequence of submissions `(identity, chosenIdx, timestamp)` against
a round, returning the final round and the number of completion-callback
firings along the way. -/
def Round.runSubs (r : Round) (subs : List (String × Int × Int)) :
    Round × Nat :=
  match subs with
  | [] => (r, 0)
  | (u, i, t) :: rest =>
    let step := r.submitAnswer u i t
    let next := step.1.runSubs rest
    (next.1, (if step.2.2.isSome then 1 else 0) + next.2)

/-- A concrete well-formed open round used by witnesses. -/
def sampleRound : Round :=
  { num := 1
    question := "Capital of France?"
    category := "Geography"
    difficulty := "easy"
    correctAnswer := "Paris"
    answers := ["Paris", "Lyon", "Nice", "Nantes"]
    correctIdx := 0
    participants := []
    correctList := []
    isOpen := true }

/-- The participant record created by an accepted submission. -/
def mkParticipant (r : Round) (u : String) (i t : Int) : Participant :=
  ⟨u, i, t, i == (r.correctIdx : Int)⟩

/-- The correct list after an accepted submission. -/
def newCorrectList (r : Round) (u : String) (i t : Int) : List Participant :=
  if i == (r.correctIdx : Int) then r.correctList ++ [mkParticipant r u i t]
  else r.correctList

/-- A closed round used by witnesses. -/
def sampleRoundClosed : Round := { sampleRound with isOpen := false }

/-- A round with two correct answers already recorded, one short of
capacity. -/
def sampleRoundTwoCorrect : Round :=
  { sampleRound with
      participants := [("A", ⟨"A", 0, 1, true⟩), ("B", ⟨"B", 0, 2, true⟩)]
      correctList := [⟨"A", 0, 1, true⟩, ⟨"B", 0, 2, true⟩] }

/-- The correct list is strictly ordered by submission timestamp. -/
def timeSorted (l : List Participant) : Prop :=
  l.Pairwise (fun a b => a.timeIn < b.timeIn)

/-! ## Quiz and session scoreboard -/

/-- Session state (`trivia.Quiz`): in-progress flag, the round chain (the
linked `NextRound` pointers are modelled as positions in a list), the count
of rounds started so far (so `CurrentRound` is the round at `started - 1`),
and the session scoreboard mapping identity to points. -/
structure Quiz where
  inProgress : Bool
  started : Nat
  rounds : List Round
  scoreboard : List (String × Nat)
deriving Repr, DecidableEq

/-- Outcome of `Quiz.StartRound`. The spec names only
`AlreadyInProgressError`; asking for a round past the end of the chain is
outside the driver protocol (the driver loops only while
`round.NextRound != nil`) and surfaces as `noNextRound`. -/
inductive StartRoundResult where
  | ok (q : Quiz) (r : Round)
  | alreadyInProgressError
  | noNextRound
deriving Repr, DecidableEq

/-- Modelled from the spec: `Quiz.StartRound(onComplete)` (the `trivia`
package's source is not under the checked tree; only its caller `runQuiz`
is). Fails with `AlreadyInProgressError` if `InProgress` is already true;
otherwise advances `CurrentRound` to the next unstarted round in the chain
(the first if none has started), marks `InProgress = true` and returns the
round without error. -/
def Quiz.startRound (q : Quiz) : StartRoundResult :=
  if q.inProgress then .alreadyInProgressError
  else
    match q.rounds.get? q.started with
    | some r => .ok { q with inProgress := true, started := q.started + 1 } r
    | none => .noNextRound

/-- Boolean ordering used by `SortedScore`: higher points first, ties broken
by identity in lexical order. -/
def scoreLE (a b : String × Nat) : Bool :=
  (b.2 < a.2 : Bool) || ((a.2 == b.2) && decide (a.1 ≤ b.1))

/-- Modelled from the spec: `Quiz.SortedScore()` returns the session
scoreboard as an ordered sequence of (identity, points) pairs, descending by
points with a stable lexical tie-break on identity; it is non-destructive
(a pure function of the quiz). -/
def Quiz.sortedScore (q : Quiz) : List (String × Nat) :=
  q.scoreboard.mergeSort scoreLE

/-! ## Leaderboard persistence -/

/-- Set key `k` to value `v` in an association list, replacing the first
existing binding or appending a fresh one. -/
def setEntry : List (String × Nat) → String → Nat → List (String × Nat)
  | [], k, v => [(k, v)]
  | (k', v') :: rest, k, v =>
    if k' = k then (k, v) :: rest else (k', v') :: setEntry rest k v

/-- Points recorded for `k`, defaulting to zero when `k` is absent. -/
def lookupD (m : List (String × Nat)) (k : String) : Nat :=
  (m.lookup k).getD 0

/-- For every identity in `delta`, add its delta points onto the existing
cumulative value (zero if absent); identities outside `delta` are untouched. -/
def mergeAdd (m : List (String × Nat)) : List (String × Nat) → List (String × Nat)
  | [] => m
  | (k, v) :: rest => mergeAdd (setEntry m k (lookupD m k + v)) rest

/-- Modelled from the spec: `trivia.Leaderboard`, the durable cross-session
mapping identity→cumulative points, with both the in-memory mapping and the
persisted (on-disk) mapping made explicit. -/
structure Leaderboard where
  mem : List (String × Nat)
  disk : List (String × Nat)
deriving Repr, DecidableEq

/-- Modelled from the spec: `Leaderboard.Update(delta)` adds each delta onto
the existing cumulative value and persists the full mapping; the atomic
write either succeeds as a whole (`writeOk = true`) or fails leaving memory
and disk both at their prior state, so the two are never inconsistent. The
returned Bool is `true` on success and `false` on a storage error. -/
def Leaderboard.update (lb : Leaderboard) (delta : List (String × Nat))
    (writeOk : Bool) : Leaderboard × Bool :=
  let merged := mergeAdd lb.mem delta
  if writeOk then ({ mem := merged, disk := merged }, true) else (lb, false)

/-! ## Driver embeddings from `internal/triviabot/triviabot.go` -/

/-- `strings.HasPrefix(s, pre)` on character lists. -/
def goHasPref : List Char → List Char → Bool
  | _, [] => true
  | [], _ :: _ => false
  | c :: s, p :: ps => c == p && goHasPref s ps

/-- `strings.Contains(s, sub)` on character lists. -/
def goContainsL : List Char → List Char → Bool
  | s, sub =>
    match s with
    | [] => goHasPref [] sub
    | _ :: t => goHasPref s sub || goContainsL t sub

/-- `strings.HasPrefix` on strings. -/
def goHasPrefixS (s pre : String) : Bool := goHasPref s.toList pre.toList

/-- `strings.Contains` on strings. -/
def goContains (s sub : String) : Bool := goContainsL s.toList sub.toList

/-- Digit-string accumulator for `strconv.Atoi`: consumes the remaining
characters, failing on any non-digit. -/
def parseDigits : List Char → Nat → Option Nat
  | [], acc => some acc
  | c :: rest, acc =>
    if c.isDigit then parseDigits rest (10 * acc + (c.toNat - 48)) else none

/-- `strconv.Atoi(s)`: optional sign followed by at least one decimal digit,
`none` on any malformed input. (64-bit overflow, which Go also rejects, is
not modelled; the driver claims only exercise small inputs.) -/
def atoi (s : String) : Option Int :=
  match s.toList with
  | [] => none
  | '+' :: rest =>
    if rest.isEmpty then none else (parseDigits rest 0).map (fun n => (n : Int))
  | '-' :: rest =>
    if rest.isEmpty then none else (parseDigits rest 0).map (fun n => -(n : Int))
  | l => (parseDigits l 0).map (fun n => (n : Int))

/-- Messages the public-chat handler can send. -/
inductive SendKind where
  | helpMsg
  | inProgressMsg
  | cooldownMsg
deriving Repr, DecidableEq

/-- Result of `onMsg`: the chat messages sent and whether the handler
proceeds to launch `runQuiz` (spawning the quiz goroutine, after recreating
the quiz if the previous chain was exhausted). -/
structure OnMsgRes where
  sends : List SendKind
  startsQuiz : Bool
deriving Repr, DecidableEq

/-- Five minutes in Go nanoseconds (`5 * time.Minute`). -/
def fiveMinutes : Int := 300000000000

/-- Embedded from `TriviaBot.onMsg` (triviabot.go): ignore messages without
the `trivia`/`!trivia` command prefix; send help on `help`/`info`; on
`start`/`new`, refuse while a quiz is in progress, refuse with a cooldown
message when less than five minutes have passed since `lastQuizEndedAt`
unless the message contains `force`, and otherwise launch the quiz. Only the
message text, the in-progress flag and the two clock readings feed the
branching; transport sends are reified in the result. -/
def onMsg (inProgress : Bool) (lastQuizEndedAt now : Int) (data : String) :
    OnMsgRes :=
  if ¬ (goHasPrefixS data "trivia" || goHasPrefixS data "!trivia") then
    ⟨[], false⟩
  else
    let helpSends : List SendKind :=
      if goContains data "help" || goContains data "info" then [.helpMsg]
      else []
    if goContains data "start" || goContains data "new" then
      if inProgress then ⟨helpSends ++ [.inProgressMsg], false⟩
      else if now - fiveMinutes < lastQuizEndedAt && ¬ goContains data "force" then
        ⟨helpSends ++ [.cooldownMsg], false⟩
      else ⟨helpSends, true⟩
    else ⟨helpSends, false⟩

/-- Private-message replies `onPrivMsg` can send. -/
inductive PrivSend where
  | invalidAnswer
  | alreadySubmitted
  | recorded
deriving Repr, DecidableEq

/-- Result of `onPrivMsg`: the current round after the handler ran and the
private replies sent to the user. -/
structure PrivRes where
  round : Round
  sends : List PrivSend
deriving Repr, DecidableEq

/-- Embedded from `TriviaBot.onPrivMsg` (triviabot.go): when a quiz is in
progress, parse the message as an integer with `strconv.Atoi`; on a parse
error reply "Invalid answer" but fall through with the zero value, so the
round still receives `NewParticipant(user, answer-1, msg.Time)`; reply
"already submitted" when the submission is rejected and "recorded" when it
is accepted. When no quiz is in progress the handler does nothing. -/
def onPrivMsg (inProgress : Bool) (r : Round) (user : String) (data : String)
    (time : Int) : PrivRes :=
  if inProgress then
    let parsed := atoi data
    let answer : Int := parsed.getD 0
    let invalidSends : List PrivSend :=
      if parsed.isNone then [.invalidAnswer] else []
    let out := r.submitAnswer user (answer - 1) time
    if out.2.1 = false then ⟨out.1, invalidSends ++ [.alreadySubmitted]⟩
    else ⟨out.1, invalidSends ++ [.recorded]⟩
  else ⟨r, []⟩

/-- Result of `onRoundCompletion`: the refreshed `lastQuizEndedAt` and the
participant names announced in the completion message. -/
structure RoundCompletionRes where
  lastQuizEndedAt : Int
  announcedNames : List String
deriving Repr, DecidableEq

/-- Embedded from `TriviaBot.onRoundCompletion` (triviabot.go): announces at
most the first three correct participants (`i <= 2`) and, via its deferred
block on every path, sets `lastQuizEndedAt` to the current time. -/
def onRoundCompletion (now : Int) (score : List Participant) :
    RoundCompletionRes :=
  { lastQuizEndedAt := now
    announcedNames := (score.take 3).map Participant.name }

/-! ## Helper lemmas about the round state machine -/

example : (sampleRound.submitAnswer "A" 0 1).2.1 = true := by decide

example :
    (sampleRound.runSubs [("A", 0, 1), ("B", 0, 2), ("C", 1, 3), ("D", 0, 4)]).2
      = 1 := by decide

example :
    ((sampleRound.runSubs
        [("A", 0, 1), ("B", 0, 2), ("C", 1, 3), ("D", 0, 4)]).1.correctList.map
        Participant.name) = ["A", "B", "D"] := by decide

example : atoi "42" = some 42 := by decide
example : atoi "-3" = some (-3) := by decide
example : atoi "APPLE" = none := by decide
example : atoi "" = none := by decide
example : atoi "1a" = none := by decide

lemma submitAnswer_closed (r : Round) (u : String) (i t : Int)
    (h : r.isOpen = false) : r.submitAnswer u i t = (r, false, none) := by
  simp [Round.submitAnswer, h]

lemma submitAnswer_dup (r : Round) (u : String) (i t : Int)
    (h : (r.participants.lookup u).isSome = true) :
    r.submitAnswer u i t = (r, false, none) := by
  by_cases ho : r.isOpen = false <;> simp [Round.submitAnswer, ho, h]

lemma submitAnswer_fire_closes (r : Round) (u : String) (i t : Int)
    (h : (r.submitAnswer u i t).2.2.isSome = true) :
    (r.submitAnswer u i t).1.isOpen = false := by
  simp only [Round.submitAnswer] at h ⊢
  by_cases h1 : r.isOpen = false
  · simp [h1] at h
  · rw [if_neg h1] at h ⊢
    by_cases h2 : (r.participants.lookup u).isSome = true
    · simp [h2] at h
    · rw [if_neg h2] at h ⊢
      split at h
      · next hi =>
        split at h
        · next hcap => rw [if_pos hi, if_pos hcap]
        · simp at h
      · next hi =>
        split at h
        · next hcap => rw [if_neg hi, if_pos hcap]
        · simp at h

lemma submitAnswer_open_new (r : Round) (u : String) (i t : Int)
    (ho : r.isOpen = true) (hu : r.participants.lookup u = none) :
    r.submitAnswer u i t =
      if capacity ≤ (newCorrectList r u i t).length then
        ({ r with participants := (u, mkParticipant r u i t) :: r.participants,
                  correctList := newCorrectList r u i t, isOpen := false },
         true, some (r.correctAnswer, newCorrectList r u i t))
      else
        ({ r with participants := (u, mkParticipant r u i t) :: r.participants,
                  correctList := newCorrectList r u i t },
         true, none) := by
  simp only [Round.submitAnswer, mkParticipant, newCorrectList]
  rw [if_neg (by simp [ho]), if_neg (by simp [hu]), ho]

lemma runSubs_closed (r : Round) (subs : List (String × Int × Int))
    (h : r.isOpen = false) : r.runSubs subs = (r, 0) := by
  induction subs with
  | nil => rfl
  | cons e rest ih =>
    obtain ⟨u, i, t⟩ := e
    simp [Round.runSubs, submitAnswer_closed r u i t h, ih]

lemma runSubs_fires_le_one (r : Round) (subs : List (String × Int × Int)) :
    (r.runSubs subs).2 ≤ 1 := by
  induction subs generalizing r with
  | nil => simp [Round.runSubs]
  | cons e rest ih =>
    obtain ⟨u, i, t⟩ := e
    by_cases hf : ((r.submitAnswer u i t).2.2).isSome = true
    · have hclosed := submitAnswer_fire_closes r u i t hf
      simp [Round.runSubs, hf, runSubs_closed _ rest hclosed]
    · simp only [Round.runSubs, hf, if_false, Bool.not_eq_true]
      simpa using ih (r.submitAnswer u i t).1

/-! ## Claim theorems -/

/-- C1: on an open round where the correct count stands at capacity minus
one, an accepted correct submission via `SubmitAnswer` closes the round and
invokes the completion callback exactly once, synchronously, with the
correct-answer text and the time-ordered list of correct participants; and
over any sequence of submissions the callback fires at most once per
round. -/
theorem capacity_closes_and_fires_once (r : Round) (u : String) (i t : Int)
    (subs : List (String × Int × Int))
    (ho : r.isOpen = true) (hu : r.participants.lookup u = none)
    (hi : (i == (r.correctIdx : Int)) = true)
    (hlen : r.correctList.length = capacity - 1) :
    (r.submitAnswer u i t).2.1 = true ∧
    (r.submitAnswer u i t).1.isOpen = false ∧
    (r.submitAnswer u i t).1.correctList = r.correctList ++ [⟨u, i, t, true⟩] ∧
    (r.submitAnswer u i t).2.2 =
      some (r.correctAnswer, (r.submitAnswer u i t).1.correctList) ∧
    (r.runSubs subs).2 ≤ 1 := by
  have hnc : newCorrectList r u i t = r.correctList ++ [⟨u, i, t, true⟩] := by
    simp only [newCorrectList, mkParticipant, if_pos hi]
    simp [Participant.mk.injEq, hi]
  have hcap : capacity ≤ (newCorrectList r u i t).length := by
    rw [hnc]
    simp [hlen, capacity]
  rw [submitAnswer_open_new r u i t ho hu, if_pos hcap]
  refine ⟨rfl, rfl, hnc, by rw [hnc], runSubs_fires_le_one r subs⟩

/-- C1 witness: the third correct answer at `sampleRoundTwoCorrect` closes
the round and the callback receives "Paris" with the three correct
participants in time order; and a whole submission trace fires at most
once. -/
theorem capacity_closes_and_fires_once_witness :
    (sampleRoundTwoCorrect.submitAnswer "D" 0 4).2.1 = true ∧
    (sampleRoundTwoCorrect.submitAnswer "D" 0 4).1.isOpen = false ∧
    (sampleRoundTwoCorrect.submitAnswer "D" 0 4).1.correctList =
      sampleRoundTwoCorrect.correctList ++ [⟨"D", 0, 4, true⟩] ∧
    (sampleRoundTwoCorrect.submitAnswer "D" 0 4).2.2 =
      some (sampleRoundTwoCorrect.correctAnswer,
            (sampleRoundTwoCorrect.submitAnswer "D" 0 4).1.correctList) ∧
    (sampleRoundTwoCorrect.runSubs [("A", 0, 1), ("B", 0, 2), ("D", 0, 4)]).2 ≤ 1 :=
  capacity_closes_and_fires_once sampleRoundTwoCorrect "D" 0 4
    [("A", 0, 1), ("B", 0, 2), ("D", 0, 4)] rfl rfl (by decide) rfl

/-- C2: `SubmitAnswer` fails closed — if the identity already has a
participant for the round, or the round is closed, it returns `false` and
leaves the round state (participant map, correct list, open flag) entirely
unchanged; in particular a second submission by the same identity on the
same open round returns `false` and does not alter the state recorded by
the first call. -/
theorem submitAnswer_fails_closed (r : Round) (u : String) (i t i2 t2 : Int) :
    (r.isOpen = false ∨ (r.participants.lookup u).isSome = true →
      r.submitAnswer u i t = (r, false, none)) ∧
    (r.isOpen = true → r.participants.lookup u = none →
      (r.submitAnswer u i t).1.submitAnswer u i2 t2 =
        ((r.submitAnswer u i t).1, false, none)) := by
  constructor
  · rintro (h | h)
    · exact submitAnswer_closed r u i t h
    · exact submitAnswer_dup r u i t h
  · intro ho hu
    have hdup : ((r.submitAnswer u i t).1.participants.lookup u).isSome = true := by
      rw [submitAnswer_open_new r u i t ho hu]
      split <;> simp [List.lookup]
    exact submitAnswer_dup _ u i2 t2 hdup

/-- C2 witness: a closed round rejects "B" unchanged, and after "A" answers
`sampleRound` a second submission by "A" is rejected with no state change. -/
theorem submitAnswer_fails_closed_witness :
    sampleRoundClosed.submitAnswer "B" 0 1 = (sampleRoundClosed, false, none) ∧
    (sampleRound.submitAnswer "A" 0 1).1.submitAnswer "A" 2 5 =
      ((sampleRound.submitAnswer "A" 0 1).1, false, none) :=
  ⟨(submitAnswer_fails_closed sampleRoundClosed "B" 0 1 0 0).1 (Or.inl rfl),
   (submitAnswer_fails_closed sampleRound "A" 0 1 2 5).2 rfl rfl⟩

/-- C6: `Close()` is idempotent — closing an open round closes it and fires
the completion callback with whatever correct participants are recorded;
closing an already-closed round (whether closed by `Close()` or by
capacity-triggered closure) changes no state and fires nothing. -/
theorem close_idempotent (r : Round) (u : String) (i t : Int) :
    ((r.close).1).close = ((r.close).1, none) ∧
    (r.isOpen = true →
      r.close = ({ r with isOpen := false }, some (r.correctAnswer, r.correctList))) ∧
    (r.isOpen = false → r.close = (r, none)) ∧
    ((r.submitAnswer u i t).2.2.isSome = true →
      ((r.submitAnswer u i t).1).close = ((r.submitAnswer u i t).1, none)) := by
  refine ⟨?_, ?_, ?_, ?_⟩
  · by_cases ho : r.isOpen = true
    · simp [Round.close, ho]
    · simp [Round.close, ho]
  · intro ho; simp [Round.close, ho]
  · intro ho; simp [Round.close, ho]
  · intro hf
    have hclosed := submitAnswer_fire_closes r u i t hf
    simp [Round.close, hclosed]

/-- C6 witness: closing the open `sampleRound` fires the callback with
"Paris" and the empty correct list, and closing the result again changes
nothing. -/
theorem close_idempotent_witness :
    ((sampleRound.close).1).close = ((sampleRound.close).1, none) ∧
    sampleRound.close =
      ({ sampleRound with isOpen := false }, some ("Paris", [])) :=
  ⟨(close_idempotent sampleRound "A" 0 0).1,
   (close_idempotent sampleRound "A" 0 0).2.1 rfl⟩

/-- C7: `StartRound` fails with `AlreadyInProgressError` exactly when
`InProgress` is true; otherwise it advances to the next unstarted round of
the chain, marks `InProgress = true`, and returns that round without
error. -/
theorem startRound_spec (q : Quiz) :
    (q.inProgress = true → q.startRound = .alreadyInProgressError) ∧
    (q.inProgress = false → q.startRound ≠ .alreadyInProgressError) ∧
    (q.inProgress = false → ∀ r, q.rounds.get? q.started = some r →
      q.startRound =
        .ok { q with inProgress := true, started := q.started + 1 } r) := by
  refine ⟨?_, ?_, ?_⟩
  · intro h; simp [Quiz.startRound, h]
  · intro h
    simp only [Quiz.startRound, h, Bool.false_eq_true, if_false]
    cases q.rounds.get? q.started <;> simp
  · intro h r hr
    rw [List.get?_eq_getElem?] at hr
    simp [Quiz.startRound, h, hr]

/-- C7 witness: starting a fresh one-round quiz returns the first round and
marks it in progress, while a quiz already in progress fails. -/
theorem startRound_spec_witness :
    (Quiz.mk false 0 [sampleRound] []).startRound =
      .ok (Quiz.mk true 1 [sampleRound] []) sampleRound ∧
    (Quiz.mk true 0 [sampleRound] []).startRound = .alreadyInProgressError :=
  ⟨(startRound_spec (Quiz.mk false 0 [sampleRound] [])).2.2 rfl sampleRound rfl,
   (startRound_spec (Quiz.mk true 0 [sampleRound] [])).1 rfl⟩

lemma strBeq_false {a b : String} (h : a ≠ b) : (a == b) = false :=
  beq_eq_false_iff_ne.mpr h

lemma lookup_setEntry_self (m : List (String × Nat)) (k : String) (v : Nat) :
    (setEntry m k v).lookup k = some v := by
  induction m with
  | nil => simp [setEntry, List.lookup]
  | cons e rest ih =>
    obtain ⟨k', v'⟩ := e
    by_cases h : k' = k
    · simp [setEntry, h, List.lookup]
    · simp [setEntry, h, List.lookup, ih, strBeq_false h, strBeq_false (Ne.symm h)]

lemma lookup_setEntry_other (m : List (String × Nat)) (k k' : String) (v : Nat)
    (h : k' ≠ k) : (setEntry m k v).lookup k' = m.lookup k' := by
  induction m with
  | nil => simp [setEntry, List.lookup, strBeq_false h, strBeq_false (Ne.symm h)]
  | cons e rest ih =>
    obtain ⟨k0, v0⟩ := e
    by_cases h0 : k0 = k
    · subst h0
      simp [setEntry, List.lookup, strBeq_false h, strBeq_false (Ne.symm h)]
    · simp [setEntry, h0, List.lookup, ih]

lemma mergeAdd_lookupD_not_mem (delta : List (String × Nat))
    (m : List (String × Nat)) (k : String) (h : k ∉ delta.map Prod.fst) :
    lookupD (mergeAdd m delta) k = lookupD m k := by
  induction delta generalizing m with
  | nil => rfl
  | cons e rest ih =>
    obtain ⟨k0, v0⟩ := e
    simp only [List.map_cons, List.mem_cons, not_or] at h
    rw [mergeAdd, ih _ h.2]
    unfold lookupD
    rw [lookup_setEntry_other _ _ _ _ h.1]

lemma mergeAdd_lookupD (delta : List (String × Nat)) (m : List (String × Nat))
    (k : String) (hnd : (delta.map Prod.fst).Nodup) :
    lookupD (mergeAdd m delta) k = lookupD m k + lookupD delta k := by
  induction delta generalizing m with
  | nil => simp [mergeAdd, lookupD, List.lookup]
  | cons e rest ih =>
    obtain ⟨k0, v0⟩ := e
    simp only [List.map_cons, List.nodup_cons] at hnd
    by_cases hk : k = k0
    · subst hk
      rw [mergeAdd, mergeAdd_lookupD_not_mem rest _ k hnd.1]
      unfold lookupD
      rw [lookup_setEntry_self]
      simp [List.lookup]
    · rw [mergeAdd, ih _ hnd.2]
      unfold lookupD
      rw [lookup_setEntry_other _ _ _ _ hk]
      simp [List.lookup, strBeq_false hk, strBeq_false (Ne.symm hk)]

/-- C8: `Leaderboard.Update(delta)` adds, for each identity in `delta`, the
delta points onto its prior cumulative value (zero if absent) and persists
the full mapping; identities outside `delta` keep their prior value, and
whether the write succeeds or fails, the in-memory and persisted mappings
stay consistent with each other. -/
theorem leaderboard_update_spec (lb : Leaderboard)
    (delta : List (String × Nat)) (writeOk : Bool) :
    ((delta.map Prod.fst).Nodup → ∀ k,
      lookupD ((lb.update delta true).1.mem) k =
        lookupD lb.mem k + lookupD delta k) ∧
    (∀ k, k ∉ delta.map Prod.fst →
      lookupD ((lb.update delta true).1.mem) k = lookupD lb.mem k) ∧
    ((lb.update delta true).1.mem = (lb.update delta true).1.disk) ∧
    ((lb.update delta false).1 = lb ∧ (lb.update delta false).2 = false) ∧
    (lb.mem = lb.disk →
      (lb.update delta writeOk).1.mem = (lb.update delta writeOk).1.disk) := by
  refine ⟨?_, ?_, ?_, ⟨rfl, rfl⟩, ?_⟩
  · intro hnd k
    simpa [Leaderboard.update] using mergeAdd_lookupD delta lb.mem k hnd
  · intro k hk
    simpa [Leaderboard.update] using mergeAdd_lookupD_not_mem delta lb.mem k hk
  · simp [Leaderboard.update]
  · intro h
    cases writeOk
    · simpa [Leaderboard.update] using h
    · simp [Leaderboard.update]

/-- C8 witness: updating `{A ↦ 1}` with `{A ↦ 2, B ↦ 3}` yields `A ↦ 3`
in memory and on disk together, and a failed write leaves the leaderboard
untouched. -/
theorem leaderboard_update_spec_witness :
    lookupD (((Leaderboard.mk [("A", 1)] [("A", 1)]).update
        [("A", 2), ("B", 3)] true).1.mem) "A" =
      lookupD [("A", 1)] "A" + lookupD [("A", 2), ("B", 3)] "A" ∧
    ((Leaderboard.mk [("A", 1)] [("A", 1)]).update [("A", 2), ("B", 3)] false).1 =
      Leaderboard.mk [("A", 1)] [("A", 1)] :=
  ⟨(leaderboard_update_spec (Leaderboard.mk [("A", 1)] [("A", 1)])
      [("A", 2), ("B", 3)] true).1 (by decide) "A",
   ((leaderboard_update_spec (Leaderboard.mk [("A", 1)] [("A", 1)])
      [("A", 2), ("B", 3)] false).2.2.2.1).1⟩

lemma scoreLE_iff (a b : String × Nat) :
    scoreLE a b = true ↔ b.2 < a.2 ∨ (a.2 = b.2 ∧ a.1 ≤ b.1) := by
  simp [scoreLE, Bool.or_eq_true, Bool.and_eq_true, decide_eq_true_eq, beq_iff_eq]

lemma scoreLE_trans :
    ∀ a b c : String × Nat,
      scoreLE a b = true → scoreLE b c = true → scoreLE a c = true := by
  intro a b c hab hbc
  rw [scoreLE_iff] at hab hbc ⊢
  rcases hab with h | ⟨he, hs⟩ <;> rcases hbc with h' | ⟨he', hs'⟩
  · exact Or.inl (lt_trans h' h)
  · exact Or.inl (he' ▸ h)
  · exact Or.inl (by omega)
  · exact Or.inr ⟨by omega, le_trans hs hs'⟩

lemma scoreLE_total :
    ∀ a b : String × Nat, (scoreLE a b || scoreLE b a) = true := by
  intro a b
  rw [Bool.or_eq_true, scoreLE_iff, scoreLE_iff]
  rcases lt_trichotomy a.2 b.2 with h | h | h
  · exact Or.inr (Or.inl h)
  · rcases le_total a.1 b.1 with hs | hs
    · exact Or.inl (Or.inr ⟨h, hs⟩)
    · exact Or.inr (Or.inr ⟨h.symm, hs⟩)
  · exact Or.inl (Or.inl h)

/-- C3: `SortedScore()` returns the session scoreboard as a sequence of
(identity, points) pairs sorted descending by points with ties broken
deterministically by lexical identity order; the result is a permutation of
the scoreboard entries and the quiz is a pure input (nothing is
modified). -/
theorem sortedScore_sorted_perm (q : Quiz) :
    (q.sortedScore).Perm q.scoreboard ∧
    q.sortedScore.Pairwise
      (fun a b => b.2 < a.2 ∨ (a.2 = b.2 ∧ a.1 ≤ b.1)) := by
  constructor
  · simpa [Quiz.sortedScore] using List.mergeSort_perm q.scoreboard scoreLE
  · have h := List.sorted_mergeSort scoreLE_trans scoreLE_total q.scoreboard
    exact h.imp (fun hab => (scoreLE_iff _ _).mp hab)

lemma onPrivMsg_round (r : Round) (user data : String) (time : Int) :
    (onPrivMsg true r user data time).round =
      (r.submitAnswer user ((atoi data).getD 0 - 1) time).1 := by
  simp only [onPrivMsg, if_true]
  split <;> rfl

lemma submitAnswer_accepted_flag (r : Round) (u : String) (i t : Int)
    (ho : r.isOpen = true) (hu : r.participants.lookup u = none) :
    (r.submitAnswer u i t).2.1 = true := by
  rw [submitAnswer_open_new r u i t ho hu]
  split <;> rfl

lemma submitAnswer_incorrect_changes (r : Round) (u : String) (i t : Int)
    (hne : (i == (r.correctIdx : Int)) = false) :
    (r.submitAnswer u i t).1.correctList = r.correctList ∧
    ((r.submitAnswer u i t).1.participants = r.participants ∨
      (r.submitAnswer u i t).1.participants =
        (u, ⟨u, i, t, false⟩) :: r.participants) := by
  by_cases ho : r.isOpen = true
  · by_cases hu : r.participants.lookup u = none
    · have hnc : newCorrectList r u i t = r.correctList := by
        simp [newCorrectList, hne]
      have hmk : mkParticipant r u i t = ⟨u, i, t, false⟩ := by
        simp [mkParticipant, hne]
      rw [submitAnswer_open_new r u i t ho hu]
      split
      · exact ⟨by simp [hnc], Or.inr (by simp [hnc, hmk])⟩
      · exact ⟨by simp [hnc], Or.inr (by simp [hnc, hmk])⟩
    · have hu' : (r.participants.lookup u).isSome = true := by
        cases h : r.participants.lookup u
        · exact absurd h hu
        · rfl
      rw [submitAnswer_dup r u i t hu']
      exact ⟨rfl, Or.inl rfl⟩
  · have ho' : r.isOpen = false := by
      revert ho; cases r.isOpen <;> simp
    rw [submitAnswer_closed r u i t ho']
    exact ⟨rfl, Or.inl rfl⟩

/-- C4: an input whose chosen answer index lies outside the round's choice
range — including a private message that does not parse as a number, which
falls through with index `-1` — is recorded as simply incorrect (or rejected
before recording); it never extends the correct list and never causes an
out-of-range access, the embedding being a total function that compares the
index against the correct index instead of indexing the choice list. -/
theorem out_of_range_answer_never_correct (b : Bool) (r : Round)
    (user data : String) (time : Int)
    (hwf : r.correctIdx < r.answers.length)
    (hrange : (atoi data).getD 0 - 1 < 0 ∨
      (r.answers.length : Int) ≤ (atoi data).getD 0 - 1) :
    (onPrivMsg b r user data time).round.correctList = r.correctList ∧
    ((onPrivMsg b r user data time).round.participants = r.participants ∨
      (onPrivMsg b r user data time).round.participants =
        (user, ⟨user, (atoi data).getD 0 - 1, time, false⟩) :: r.participants) := by
  have hne : (((atoi data).getD 0 - 1) == (r.correctIdx : Int)) = false := by
    rw [beq_eq_false_iff_ne]
    intro hEq
    rcases hrange with hlt | hge <;> omega
  cases b
  · simp [onPrivMsg]
  · rw [onPrivMsg_round r user data time]
    exact submitAnswer_incorrect_changes r user _ time hne

/-- C4 witness: the message "9" chooses index 8 in a four-choice round; it
is recorded for "E" as incorrect and the correct list is untouched. -/
theorem out_of_range_answer_never_correct_witness :
    (onPrivMsg true sampleRound "E" "9" 5).round.correctList =
      sampleRound.correctList ∧
    ((onPrivMsg true sampleRound "E" "9" 5).round.participants =
        sampleRound.participants ∨
      (onPrivMsg true sampleRound "E" "9" 5).round.participants =
        ("E", ⟨"E", (atoi "9").getD 0 - 1, 5, false⟩) :: sampleRound.participants) :=
  out_of_range_answer_never_correct true sampleRound "E" "9" 5 (by decide)
    (Or.inr (by decide))

/-- C10: while a quiz is in progress, a private message that does not parse
as an integer still reaches `NewParticipant` with chosen index `-1` (the
zero value of the failed parse minus one), so the sender's one answer for
the round is consumed — recorded as incorrect and any later submission by
the same sender rejected; with no quiz in progress, private messages change
nothing and record nothing. -/
theorem onPrivMsg_unparsed_consumes (r : Round) (user data : String)
    (time : Int) (hparse : atoi data = none) (ho : r.isOpen = true)
    (hu : r.participants.lookup user = none) :
    (onPrivMsg true r user data time).round.participants =
      (user, ⟨user, -1, time, false⟩) :: r.participants ∧
    (onPrivMsg true r user data time).round.correctList = r.correctList ∧
    (onPrivMsg true r user data time).sends =
      [PrivSend.invalidAnswer, PrivSend.recorded] ∧
    (∀ i2 t2, (onPrivMsg true r user data time).round.submitAnswer user i2 t2 =
      ((onPrivMsg true r user data time).round, false, none)) ∧
    (∀ (r2 : Round) (u2 d2 : String) (t2 : Int),
      onPrivMsg false r2 u2 d2 t2 = ⟨r2, []⟩) := by
  have hne : (((-1 : Int)) == (r.correctIdx : Int)) = false := by
    rw [beq_eq_false_iff_ne]
    intro hEq
    omega
  have hround : (onPrivMsg true r user data time).round =
      (r.submitAnswer user (-1) time).1 := by
    rw [onPrivMsg_round r user data time, hparse]
    norm_num
  have hchanges := submitAnswer_incorrect_changes r user (-1) time hne
  have hflag := submitAnswer_accepted_flag r user (-1) time ho hu
  have hparts : (r.submitAnswer user (-1) time).1.participants =
      (user, ⟨user, -1, time, false⟩) :: r.participants := by
    rcases hchanges.2 with h | h
    · exfalso
      rw [submitAnswer_open_new r user (-1) time ho hu] at h
      revert h
      split <;> simp
    · exact h
  refine ⟨by rw [hround, hparts], by rw [hround]; exact hchanges.1, ?_, ?_, ?_⟩
  · simp only [onPrivMsg, hparse, if_true]
    norm_num [hflag]
  · intro i2 t2
    have hdup : ((onPrivMsg true r user data time).round.participants.lookup
        user).isSome = true := by
      rw [hround, hparts]
      simp [List.lookup]
    exact submitAnswer_dup _ user i2 t2 hdup
  · intro r2 u2 d2 t2
    simp [onPrivMsg]

/-- C10 witness: with the quiz running, the unparseable message "APPLE" from
"E" is recorded as an incorrect answer with index `-1`, the follow-up "1"
from "E" is rejected, and with no quiz running nothing changes. -/
theorem onPrivMsg_unparsed_consumes_witness :
    (onPrivMsg true sampleRound "E" "APPLE" 5).round.participants =
      ("E", ⟨"E", -1, 5, false⟩) :: sampleRound.participants ∧
    (onPrivMsg true sampleRound "E" "APPLE" 5).sends =
      [PrivSend.invalidAnswer, PrivSend.recorded] ∧
    (onPrivMsg true sampleRound "E" "APPLE" 5).round.submitAnswer "E" 0 6 =
      ((onPrivMsg true sampleRound "E" "APPLE" 5).round, false, none) ∧
    onPrivMsg false sampleRound "E" "1" 7 = ⟨sampleRound, []⟩ :=
  ⟨(onPrivMsg_unparsed_consumes sampleRound "E" "APPLE" 5 rfl rfl rfl).1,
   (onPrivMsg_unparsed_consumes sampleRound "E" "APPLE" 5 rfl rfl rfl).2.2.1,
   (onPrivMsg_unparsed_consumes sampleRound "E" "APPLE" 5 rfl rfl rfl).2.2.2.1 0 6,
   (onPrivMsg_unparsed_consumes sampleRound "E" "APPLE" 5 rfl rfl rfl).2.2.2.2
      sampleRound "E" "1" 7⟩

/-- C9 counterexample: the public message "go start" contains "start",
arrives with no quiz in progress, within the five-minute cooldown window
and without "force", yet `onMsg` sends no cooldown message at all (it sends
nothing and starts nothing), because the handler first requires the
`trivia`/`!trivia` command prefix. -/
theorem onMsg_cooldown_counterexample :
    goContains "go start" "start" = true ∧
    ((0 : Int) - fiveMinutes < 0) ∧
    goContains "go start" "force" = false ∧
    onMsg false 0 0 "go start" = ⟨[], false⟩ ∧
    SendKind.cooldownMsg ∉ (onMsg false 0 0 "go start").sends :=
  ⟨by decide, by decide, by decide, by decide, by decide⟩

/-- C9 (amended): for every public chat message that carries the
`trivia`/`!trivia` command prefix and contains "start" or "new", arriving
when no quiz is in progress, if less than five minutes have elapsed since
`lastQuizEndedAt` and the message does not contain "force", `onMsg` sends a
cooldown message and does not start a new quiz; and `lastQuizEndedAt` is
refreshed each time the round-completion handler runs. -/
theorem onMsg_cooldown_amended (inProg : Bool) (last now : Int)
    (data : String) (score : List Participant)
    (hpre : (goHasPrefixS data "trivia" || goHasPrefixS data "!trivia") = true)
    (hsn : (goContains data "start" || goContains data "new") = true)
    (hip : inProg = false)
    (hcd : now - fiveMinutes < last)
    (hforce : goContains data "force" = false) :
    SendKind.cooldownMsg ∈ (onMsg inProg last now data).sends ∧
    (onMsg inProg last now data).startsQuiz = false ∧
    (onRoundCompletion now score).lastQuizEndedAt = now := by
  subst hip
  refine ⟨?_, ?_, rfl⟩ <;>
    simp [onMsg, hpre, hsn, hcd, hforce]

/-- C9 amended witness: "trivia start" right after a quiz ended draws the
cooldown message and no quiz start, and the completion handler stamps the
current time. -/
theorem onMsg_cooldown_amended_witness :
    SendKind.cooldownMsg ∈ (onMsg false 0 0 "trivia start").sends ∧
    (onMsg false 0 0 "trivia start").startsQuiz = false ∧
    (onRoundCompletion (0 : Int) []).lastQuizEndedAt = 0 :=
  onMsg_cooldown_amended false 0 0 "trivia start" [] (by decide) (by decide)
    rfl (by decide) (by decide)

lemma submitAnswer_correctList_cases (r : Round) (u : String) (i t : Int) :
    (r.submitAnswer u i t).1.correctList = r.correctList ∨
    (r.submitAnswer u i t).1.correctList = r.correctList ++ [⟨u, i, t, true⟩] := by
  by_cases ho : r.isOpen = true
  · by_cases hu : r.participants.lookup u = none
    · rw [submitAnswer_open_new r u i t ho hu]
      by_cases hi : (i == (r.correctIdx : Int)) = true
      · have hnc : newCorrectList r u i t = r.correctList ++ [⟨u, i, t, true⟩] := by
          simp only [newCorrectList, mkParticipant, if_pos hi]
          simp [Participant.mk.injEq, hi]
        split <;> exact Or.inr (by simp [hnc])
      · have hnc : newCorrectList r u i t = r.correctList := by
          simp [newCorrectList, hi]
        split <;> exact Or.inl (by simp [hnc])
    · have hu' : (r.participants.lookup u).isSome = true := by
        cases h : r.participants.lookup u
        · exact absurd h hu
        · rfl
      rw [submitAnswer_dup r u i t hu']
      exact Or.inl rfl
  · have ho' : r.isOpen = false := by
      revert ho; cases r.isOpen <;> simp
    rw [submitAnswer_closed r u i t ho']
    exact Or.inl rfl

lemma runSubs_timeSorted (subs : List (String × Int × Int)) (r : Round)
    (hs : timeSorted r.correctList)
    (hb : ∀ p ∈ r.correctList, ∀ e ∈ subs, p.timeIn < e.2.2)
    (hm : (subs.map (fun e => e.2.2)).Pairwise (· < ·)) :
    timeSorted (r.runSubs subs).1.correctList ∧
    r.correctList <+: (r.runSubs subs).1.correctList := by
  induction subs generalizing r with
  | nil => exact ⟨hs, List.prefix_refl _⟩
  | cons e rest ih =>
    obtain ⟨u, i, t⟩ := e
    have hstep : (r.runSubs ((u, i, t) :: rest)).1 =
        ((r.submitAnswer u i t).1.runSubs rest).1 := by
      simp [Round.runSubs]
    have hx : (∀ (a' : Int) (x : String) (y : Int), (x, y, a') ∈ rest → t < a') ∧
        (rest.map (fun e => e.2.2)).Pairwise (· < ·) := by simpa using hm
    have hm1 : (rest.map (fun e => e.2.2)).Pairwise (· < ·) := hx.2
    have ht_rest : ∀ e' ∈ rest, t < e'.2.2 := by
      intro e' he'
      exact hx.1 e'.2.2 e'.1 e'.2.1 (by simpa using he')
    rcases submitAnswer_correctList_cases r u i t with hcl | hcl
    · have hs1 : timeSorted (r.submitAnswer u i t).1.correctList := by
        rw [hcl]; exact hs
      have hb1 : ∀ p ∈ (r.submitAnswer u i t).1.correctList, ∀ e' ∈ rest,
          p.timeIn < e'.2.2 := by
        rw [hcl]
        intro p hp e' he'
        exact hb p hp e' (List.mem_cons_of_mem _ he')
      have hres := ih (r.submitAnswer u i t).1 hs1 hb1 hm1
      rw [hstep]
      exact ⟨hres.1, by rw [hcl] at hres; exact hres.2⟩
    · have hlt : ∀ p ∈ r.correctList, p.timeIn < t := by
        intro p hp
        exact hb p hp (u, i, t) (List.mem_cons_self _ _)
      have hs1 : timeSorted (r.submitAnswer u i t).1.correctList := by
        rw [hcl]
        rw [timeSorted, List.pairwise_append]
        refine ⟨hs, List.pairwise_singleton _ _, ?_⟩
        intro a ha b hbmem
        simp only [List.mem_singleton] at hbmem
        subst hbmem
        simpa using hlt a ha
      have hb1 : ∀ p ∈ (r.submitAnswer u i t).1.correctList, ∀ e' ∈ rest,
          p.timeIn < e'.2.2 := by
        rw [hcl]
        intro p hp e' he'
        rcases List.mem_append.mp hp with hp | hp
        · exact hb p hp e' (List.mem_cons_of_mem _ he')
        · simp only [List.mem_singleton] at hp
          subst hp
          simpa using ht_rest e' he'
      have hres := ih (r.submitAnswer u i t).1 hs1 hb1 hm1
      rw [hstep]
      refine ⟨hres.1, ?_⟩
      have h1 : r.correctList <+: (r.submitAnswer u i t).1.correctList := by
        rw [hcl]; exact List.prefix_append _ _
      exact h1.trans hres.2

/-- C5: for every round and every sequence of submissions arriving in
strictly increasing timestamp order (later than everything already
recorded), the list of correct participants stays strictly sorted by
submission timestamp ascending, and correct submissions are only ever
appended, preserving that order. -/
theorem correctList_time_sorted (r : Round) (subs : List (String × Int × Int))
    (hs : timeSorted r.correctList)
    (hb : ∀ p ∈ r.correctList, ∀ e ∈ subs, p.timeIn < e.2.2)
    (hm : (subs.map (fun e => e.2.2)).Pairwise (· < ·)) :
    timeSorted (r.runSubs subs).1.correctList ∧
    r.correctList <+: (r.runSubs subs).1.correctList :=
  runSubs_timeSorted subs r hs hb hm

/-- C5 witness: the §8 scenario trace leaves the correct list strictly
time-ordered and extends the (initially empty) list only at its end. -/
theorem correctList_time_sorted_witness :
    timeSorted
      (sampleRound.runSubs
        [("A", 0, 1), ("B", 0, 2), ("C", 1, 3), ("D", 0, 4)]).1.correctList ∧
    sampleRound.correctList <+:
      (sampleRound.runSubs
        [("A", 0, 1), ("B", 0, 2), ("C", 1, 3), ("D", 0, 4)]).1.correctList :=
  correctList_time_sorted sampleRound
    [("A", 0, 1), ("B", 0, 2), ("C", 1, 3), ("D", 0, 4)]
    List.Pairwise.nil (by simp [sampleRound]) (by decide)

end Trivia
